import Mathlib

/-!
# go-imap-disk: the mailbox index and its operations

A shallow embedding of `mailbox.go` and `message.go`.

* The bolt bucket "messages" is a list of key/value pairs in ascending key
  order together with the bucket's 64-bit sequence counter.  A cursor walk
  (`c.First()` / `c.Next()`) started at the beginning of a transaction reads
  the pages of the transaction's starting snapshot, so a walk is a walk over
  the entry list the transaction started with; `Put` and `Delete` act on the
  transaction's working copy.  `db.Update` commits the working copy when the
  closure returns nil and discards it otherwise.
* A stored value is represented by what `json.Unmarshal` makes of it.
* Go's `uint32` / `uint64` arithmetic is written with explicit remainders.
* The collaborators from other packages (file system, message parser,
  `backendutil` fetchers and matchers, `imap.SeqSet`) are parameters.
* A path is a Go string; `filepath.Join` cleans the joined path as Go does on
  a Unix system, so different keys can name one body file.
-/

namespace Disk

/-! ## Bytes, keys and the identifier codec (`message.go`) -/

/-- A Go `[]byte` used as a bolt key. -/
abbrev Key := List (Fin 256)

/-- Unsigned lexicographic order on byte strings: `bytes.Compare a b < 0`. -/
def bytesLt : List (Fin 256) → List (Fin 256) → Bool
  | [], [] => false
  | [], _ :: _ => true
  | _ :: _, [] => false
  | a :: as, b :: bs => decide (a < b) || (a == b && bytesLt as bs)

/-- Source: `func parseUid(k []byte) uint32 { return 0 // TODO }`. -/
def parseUid (_k : Key) : Nat := 0

/-- Source: `func formatUid(uid uint32) []byte { return nil // TODO }`. -/
def formatUid (_uid : Nat) : Key := []

/-! ## Message records (`message.go`) -/

/-- A `time.Time`: the year, which decides whether `MarshalJSON` accepts the
value, and the remaining components (month, day, clock, zone) as one number. -/
structure Time where
  year : Int
  rest : Nat
deriving DecidableEq, Repr

/-- The zero `time.Time` (January 1, year 1, 00:00:00 UTC). -/
def Time.zero : Time := { year := 1, rest := 0 }

/-- A Go `map[string]bool`, as the list of its entries (keys distinct). -/
abbrev FlagMap := List (String × Bool)

/-- Map read `m[name]`: the stored value, `false` when the key is absent. -/
def FlagMap.get (fl : FlagMap) (name : String) : Bool :=
  (fl.lookup name).getD false

/-- Map write `m[name] = true`. -/
def FlagMap.setTrue (fl : FlagMap) (name : String) : FlagMap :=
  if fl.any (fun p => p.1 == name) then
    fl.map (fun p => if p.1 == name then (p.1, true) else p)
  else fl ++ [(name, true)]

/-- A Go string that names a file; each character stands for one byte. -/
abbrev Filepath := String

/-- The conversion `string(k)` of a byte slice. -/
def goString (k : Key) : String :=
  String.mk (k.map (fun b => Char.ofNat b.val))

/-- The elements of a path between its separators `/`. -/
def splitSlash : List Char → List (List Char)
  | [] => [[]]
  | c :: cs =>
    match splitSlash cs with
    | [] => [[c]]
    | elem :: elems => if c = '/' then [] :: elem :: elems else (c :: elem) :: elems

/-- One element read by `filepath.Clean`, on the elements kept so far (last
kept first): an empty element and `.` are dropped; `..` removes the last
kept element when that is a name, is kept in a path that is not rooted when
nothing can be removed, and is dropped at the root; a name is kept. -/
def cleanStep (rooted : Bool) (kept : List (List Char)) (elem : List Char) :
    List (List Char) :=
  if elem = [] ∨ elem = ['.'] then kept
  else if elem = ['.', '.'] then
    match kept with
    | top :: below => if top = ['.', '.'] then elem :: kept else below
    | [] => if rooted then [] else [elem]
  else elem :: kept

/-- The function `filepath.Clean` of Go on a Unix system. -/
def filepathClean (path : String) : String :=
  if path = "" then "."
  else
    let rooted := path.data.head? = some '/'
    let kept := ((splitSlash path.data).foldl (cleanStep rooted) []).reverse
    let body := String.mk (List.intercalate ['/'] kept)
    if rooted then "/" ++ body
    else if body = "" then "."
    else body

/-- The call `filepath.Join(dir, name)` of Go on a Unix system: empty
elements are ignored and the result is cleaned. -/
def filepathJoin (dir name : String) : String :=
  if dir ≠ "" then filepathClean (dir ++ "/" ++ name)
  else if name ≠ "" then filepathClean name
  else ""

/-- Source: `type Message struct`. -/
structure Message where
  Filepath : Filepath
  SeqNum : Nat
  Uid : Nat
  Flags : FlagMap
  Date : Time
deriving DecidableEq, Repr

/-- Source: `func (msg *Message) flagList() []string`: every key of the map,
whatever the value stored under it. -/
def Message.flagList (msg : Message) : List String :=
  msg.Flags.map Prod.fst

/-- Source: `func (msg *Message) setFlagList(flags []string)`. -/
def Message.setFlagList (msg : Message) (flags : List String) : Message :=
  { msg with Flags := flags.foldl FlagMap.setTrue [] }

/-- Flag names of package `imap`. -/
def SeenFlag : String := "\\Seen"

/-- The flag `imap.DeletedFlag`. -/
def DeletedFlag : String := "\\Deleted"

/-- The flag `imap.RecentFlag`. -/
def RecentFlag : String := "\\Recent"

/-! ## Errors -/

/-- The errors the operations can return, by origin. -/
inductive Error
  | dbOpen            -- bolt.Open failed
  | keyRequired       -- bolt.ErrKeyRequired
  | keyTooLarge       -- bolt.ErrKeyTooLarge
  | jsonUnmarshal     -- json.Unmarshal rejected the stored bytes
  | jsonMarshal       -- json.Marshal failed (Time.MarshalJSON: year outside [0,9999])
  | osOpen            -- os.Open failed
  | osCreate          -- os.Create failed
  | osRemove          -- os.Remove failed
  | ioCopy            -- io.Copy failed
  | messageRead       -- message.Read failed
  | matchBody         -- backendutil.Match failed
  | copyUnsupported   -- "disk: COPY not supported"
deriving DecidableEq, Repr

/-! ## The bolt bucket -/

/-- A stored value, by what `json.Unmarshal(v, &msg)` makes of it: either it
decodes and sets the two exported fields, or it is rejected. -/
inductive Value
  | record (Flags : FlagMap) (Date : Time)
  | corrupt (raw : List (Fin 256))
deriving DecidableEq, Repr

/-- The call `json.Unmarshal(v, msg)` on a message whose unexported-to-JSON
fields (`json:"-"`) are already set. -/
def jsonUnmarshal (v : Value) (msg : Message) : Except Error Message :=
  match v with
  | .record fl d => .ok { msg with Flags := fl, Date := d }
  | .corrupt _ => .error .jsonUnmarshal

/-- The call `json.Marshal(msg)`: only `Flags` and `Date` are written, and
`time.Time` refuses a year outside `[0,9999]`. -/
def jsonMarshal (msg : Message) : Except Error Value :=
  if 0 ≤ msg.Date.year ∧ msg.Date.year ≤ 9999 then .ok (.record msg.Flags msg.Date)
  else .error .jsonMarshal

/-- The bucket "messages": entries in ascending key order and the bucket's
sequence counter (a `uint64`). -/
structure Bucket where
  entries : List (Key × Value)
  sequence : Nat
deriving DecidableEq, Repr

/-- Bucket invariant kept by bolt: keys strictly ascending in byte order. -/
def Bucket.WF (b : Bucket) : Prop :=
  (b.entries.map Prod.fst).Pairwise (fun a c => bytesLt a c = true)

/-- The constant `bolt.MaxKeySize`. -/
def MaxKeySize : Nat := 32768

/-- Leaf update of `Bucket.Put`: at the first entry whose key is not below
`k`, replace it when the key is `k`, insert before it otherwise. -/
def putEntries (k : Key) (v : Value) : List (Key × Value) → List (Key × Value)
  | [] => [(k, v)]
  | (k', v') :: rest =>
    if bytesLt k' k then (k', v') :: putEntries k v rest
    else if k' = k then (k, v) :: rest
    else (k, v) :: (k', v') :: rest

/-- Leaf update of `Bucket.Delete`: at the first entry whose key is not below
`k`, remove it when the key is `k`. -/
def deleteEntries (k : Key) : List (Key × Value) → List (Key × Value)
  | [] => []
  | (k', v') :: rest =>
    if bytesLt k' k then (k', v') :: deleteEntries k rest
    else if k' = k then rest
    else (k', v') :: rest

/-- The call `b.Put(k, v)` in a writable transaction. -/
def Bucket.Put (b : Bucket) (k : Key) (v : Value) : Except Error Bucket :=
  if k.length = 0 then .error .keyRequired
  else if k.length > MaxKeySize then .error .keyTooLarge
  else .ok { b with entries := putEntries k v b.entries }

/-- The call `b.Delete(k)` in a writable transaction. -/
def Bucket.Delete (b : Bucket) (k : Key) : Except Error Bucket :=
  .ok { b with entries := deleteEntries k b.entries }

/-- The call `b.NextSequence()` in a writable transaction: the incremented
counter and the bucket holding it. -/
def Bucket.NextSequence (b : Bucket) : Nat × Bucket :=
  let id := (b.sequence + 1) % 18446744073709551616
  (id, { b with sequence := id })

/-! ## The mailbox -/

/-- Source: `type Mailbox struct`.  `index` is what `m.open()` yields: the
bucket of the store file, or nothing when `bolt.Open` fails. -/
structure Mailbox where
  Dirpath : String
  Name : String
  index : Option Bucket
deriving DecidableEq, Repr

/-- Source: `func (m *Mailbox) messageFilepath(k []byte) string`. -/
def Mailbox.messageFilepath (m : Mailbox) (k : Key) : Filepath :=
  filepathJoin m.Dirpath (goString k ++ ".eml")

/-- Source: `func (m *Mailbox) message(k, v []byte, seqNum, uid uint32)`. -/
def Mailbox.message (m : Mailbox) (k : Key) (v : Value) (seqNum uid : Nat) :
    Except Error Message :=
  jsonUnmarshal v
    { Filepath := m.messageFilepath k, SeqNum := seqNum, Uid := uid, Flags := [],
      Date := Time.zero }

/-- Outcome of `db.Update(fn)`: the working copy is committed when the closure
returns nil, and the starting state is kept when it returns an error. -/
def commitOr (b : Bucket) (r : Except Error Bucket) : Bucket :=
  match r with
  | .ok b' => b'
  | .error _ => b

/-- The error a closure result carries, if any. -/
def errOf {α : Type} (r : Except Error α) : Option Error :=
  match r with
  | .ok _ => none
  | .error e => some e

/-! ## Collaborators from other packages -/

/-- An open file handle (`*os.File`). -/
abbrev File := Nat

/-- A parsed message (`*message.Entity`). -/
abbrev Entity := Nat

/-- An `*imap.BodySectionName`. -/
abbrev Section := Nat

/-- An `imap.FlagsOp`: a string, with three named operations. -/
abbrev FlagsOp := String

/-- The operation `imap.SetFlags`. -/
def SetFlags : FlagsOp := "FLAGS"

/-- The operation `imap.AddFlags`. -/
def AddFlags : FlagsOp := "+FLAGS"

/-- The operation `imap.RemoveFlags`. -/
def RemoveFlags : FlagsOp := "-FLAGS"

/-- An `*imap.SeqSet`, by its method `Contains`. -/
abbrev SeqSet := Nat → Bool

/-- The file system and the functions of packages `message` and
`backendutil` that the mailbox calls; `none` stands for a returned error. -/
structure Env where
  osOpen : Filepath → Option File
  seekStart : File → Bool
  statSize : File → Option Nat
  osCreate : Filepath → Option File
  ioCopy : File → List (Fin 256) → Bool
  osRemove : Filepath → Bool
  messageRead : File → Option Entity
  FetchEnvelope : Entity → Option Nat
  FetchBodyStructure : Entity → Bool → Option Nat
  NewBodySectionName : String → Option Section
  FetchBodySection : Entity → Section → Option Nat
  UpdateFlags : List String → FlagsOp → List String → List String

/-- An `*imap.SearchCriteria`, by what the four `backendutil` matchers answer
for it: `MatchSeqNumAndUid seqNum uid`, `MatchDate date`, `MatchFlags flags`
and `Match entity` (which can fail). -/
structure SearchCriteria where
  MatchSeqNumAndUid : Nat → Nat → Bool
  MatchDate : Time → Bool
  MatchFlags : List String → Bool
  Match : Entity → Except Error Bool

/-! ## Status (`mailbox.go`, lines 60-99) -/

/-- The fields of `imap.MailboxStatus` that `Status` sets. -/
structure MailboxStatus where
  Name : String
  Items : List String
  PermanentFlags : List String
  UidValidity : Nat
  Messages : Nat
  Recent : Nat
  Unseen : Nat
  UidNext : Nat
deriving DecidableEq, Repr

/-- The cursor loop of `Status`: the status reached and the error the closure
returns. -/
def statusLoop : List (Key × Value) → MailboxStatus → MailboxStatus × Option Error
  | [], st => (st, none)
  | (k, v) :: rest, st =>
    let st := { st with Messages := (st.Messages + 1) % 4294967296 }
    let uid := parseUid k
    let st := if uid > st.UidNext then { st with UidNext := uid } else st
    match jsonUnmarshal v
      { Filepath := "", SeqNum := 0, Uid := 0, Flags := [],
        Date := Time.zero } with
    | .error e => (st, some e)
    | .ok msg =>
      let st := if msg.Flags.get RecentFlag then
        { st with Recent := (st.Recent + 1) % 4294967296 } else st
      let st := if !msg.Flags.get SeenFlag then
        { st with Unseen := (st.Unseen + 1) % 4294967296 } else st
      statusLoop rest st

/-- Source: `func (m *Mailbox) Status(items []string)`. -/
def Mailbox.Status (m : Mailbox) (items : List String) : Option MailboxStatus × Option Error :=
  match m.index with
  | none => (none, some .dbOpen)
  | some b =>
    let status : MailboxStatus :=
      { Name := m.Name, Items := items, PermanentFlags := ["\\*"], UidValidity := 1,
        Messages := 0, Recent := 0, Unseen := 0, UidNext := 0 }
    let r := statusLoop b.entries status
    (some { r.1 with UidNext := (r.1.UidNext + 1) % 4294967296 }, r.2)

/-! ## Attribute projection (`message.go`, lines 46-118) -/

/-- The fields of `imap.Message` that `toIMAP` sets. -/
structure ImapMessage where
  SeqNum : Nat
  Items : List String
  Envelope : Option Nat
  BodyStructure : Option Nat
  Flags : List String
  InternalDate : Time
  Size : Nat
  Uid : Nat
  Body : List (Section × Option Nat)
deriving DecidableEq, Repr

/-- The closure `read` of `toIMAP`: opens the body file on first use, seeks
to its start afterwards, then parses.  Returns the handle now held and the
parsed entity (`none` on error). -/
def toIMAPRead (env : Env) (path : Filepath) (f : Option File) : Option File × Option Entity :=
  match f with
  | none =>
    match env.osOpen path with
    | none => (none, none)
    | some h => (some h, env.messageRead h)
  | some h => if env.seekStart h then (some h, env.messageRead h) else (some h, none)

/-- The message attribute `imap.EnvelopeMsgAttr`. -/
def EnvelopeMsgAttr : String := "ENVELOPE"

/-- The message attribute `imap.BodyStructureMsgAttr`. -/
def BodyStructureMsgAttr : String := "BODYSTRUCTURE"

/-- The message attribute `imap.BodyMsgAttr`. -/
def BodyMsgAttr : String := "BODY"

/-- The message attribute `imap.FlagsMsgAttr`. -/
def FlagsMsgAttr : String := "FLAGS"

/-- The message attribute `imap.InternalDateMsgAttr`. -/
def InternalDateMsgAttr : String := "INTERNALDATE"

/-- The message attribute `imap.SizeMsgAttr`. -/
def SizeMsgAttr : String := "RFC822.SIZE"

/-- The message attribute `imap.UidMsgAttr`. -/
def UidMsgAttr : String := "UID"

/-- One turn of the `for _, item := range items` loop of `toIMAP`; `none` is
`return nil, err`. -/
def toIMAPItem (env : Env) (msg : Message) (st : ImapMessage × Option File) (item : String) :
    Option (ImapMessage × Option File) :=
  if item = EnvelopeMsgAttr then
    match toIMAPRead env msg.Filepath st.2 with
    | (_, none) => none
    | (f, some e) => some ({ st.1 with Envelope := env.FetchEnvelope e }, f)
  else if item = BodyStructureMsgAttr ∨ item = BodyMsgAttr then
    match toIMAPRead env msg.Filepath st.2 with
    | (_, none) => none
    | (f, some e) =>
      some ({ st.1 with BodyStructure := env.FetchBodyStructure e (item = BodyMsgAttr) }, f)
  else if item = FlagsMsgAttr then some ({ st.1 with Flags := msg.flagList }, st.2)
  else if item = InternalDateMsgAttr then some ({ st.1 with InternalDate := msg.Date }, st.2)
  else if item = SizeMsgAttr then
    match (match st.2 with
      | none => env.osOpen msg.Filepath
      | some h => some h) with
    | none => none
    | some h =>
      match env.statSize h with
      | none => none
      | some size => some ({ st.1 with Size := size % 4294967296 }, some h)
  else if item = UidMsgAttr then some ({ st.1 with Uid := msg.Uid }, st.2)
  else
    -- default: a body section name, or an item that is none and is passed over
    match env.NewBodySectionName item with
    | none => some st
    | some sec =>
      match toIMAPRead env msg.Filepath st.2 with
      | (_, none) => none
      | (f, some e) => some ({ st.1 with Body := st.1.Body ++ [(sec, env.FetchBodySection e sec)] }, f)

/-- The item loop of `toIMAP`. -/
def toIMAPLoop (env : Env) (msg : Message) :
    List String → ImapMessage × Option File → Option (ImapMessage × Option File)
  | [], st => some st
  | item :: rest, st =>
    match toIMAPItem env msg st item with
    | none => none
    | some st' => toIMAPLoop env msg rest st'

/-- Source: `func (msg *Message) toIMAP(items []string)`; `none` is a
returned error. -/
def Message.toIMAP (env : Env) (msg : Message) (items : List String) : Option ImapMessage :=
  let imapMsg : ImapMessage :=
    { SeqNum := msg.SeqNum, Items := items, Envelope := none, BodyStructure := none,
      Flags := [], InternalDate := Time.zero, Size := 0, Uid := 0, Body := [] }
  (toIMAPLoop env msg items (imapMsg, none)).map Prod.fst

/-! ## Listing (`mailbox.go`, lines 126-161) -/

/-- The selector test shared by `ListMessages` and `UpdateMessagesFlags`:
`(isUid && !seqSet.Contains(uid)) || (!isUid && !seqSet.Contains(seqNum))`. -/
def skipped (isUid : Bool) (seqSet : SeqSet) (seqNum uid : Nat) : Bool :=
  (isUid && !seqSet uid) || (!isUid && !seqSet seqNum)

/-- The cursor loop of `ListMessages`, started with the counter `seqNum`:
the messages sent on the channel, in order, and the error returned. -/
def listLoop (env : Env) (m : Mailbox) (isUid : Bool) (seqSet : SeqSet) (items : List String) :
    List (Key × Value) → Nat → List ImapMessage × Option Error
  | [], _ => ([], none)
  | (k, v) :: rest, seqNum =>
    let uid := parseUid k
    let seqNum := (seqNum + 1) % 4294967296
    if skipped isUid seqSet seqNum uid then listLoop env m isUid seqSet items rest seqNum
    else
      match m.message k v seqNum uid with
      | .error e => ([], some e)
      | .ok msg =>
        match msg.toIMAP env items with
        | none => listLoop env m isUid seqSet items rest seqNum
        | some imapMsg =>
          let r := listLoop env m isUid seqSet items rest seqNum
          (imapMsg :: r.1, r.2)

/-- Source: `func (m *Mailbox) ListMessages(isUid, seqSet, items, ch)`. -/
def Mailbox.ListMessages (env : Env) (m : Mailbox) (isUid : Bool) (seqSet : SeqSet)
    (items : List String) : List ImapMessage × Option Error :=
  match m.index with
  | none => ([], some .dbOpen)
  | some b => listLoop env m isUid seqSet items b.entries 0

/-! ## Search (`mailbox.go`, lines 163-227) -/

/-- A call made by `SearchMessages` on a body file or its content. -/
inductive BodyCall
  | osOpen (path : Filepath)        -- os.Open(msg.Filepath)
  | messageRead (path : Filepath)   -- message.Read(f) on the file opened at path
  | matchBody (path : Filepath)     -- backendutil.Match(e, criteria) on its entity
deriving DecidableEq, Repr

/-- What `SearchMessages` returns (`ids`, `err`) and the body calls it made,
in order. -/
structure SearchResult where
  ids : List Nat
  err : Option Error
  calls : List BodyCall
deriving DecidableEq, Repr

/-- Prepends the outcome of one loop turn to the outcome of the rest. -/
def SearchResult.after (ids : List Nat) (calls : List BodyCall) (r : SearchResult) :
    SearchResult :=
  { ids := ids ++ r.ids, err := r.err, calls := calls ++ r.calls }

/-- The cursor loop of `SearchMessages`, started with the counter `seqNum`. -/
def searchLoop (env : Env) (m : Mailbox) (isUid : Bool) (criteria : SearchCriteria) :
    List (Key × Value) → Nat → SearchResult
  | [], _ => { ids := [], err := none, calls := [] }
  | (k, v) :: rest, seqNum =>
    -- Filter sequence number and UID
    let uid := parseUid k
    let seqNum := (seqNum + 1) % 4294967296
    if !criteria.MatchSeqNumAndUid seqNum uid then searchLoop env m isUid criteria rest seqNum
    else
      -- Read message metadata
      match m.message k v seqNum uid with
      | .error e => { ids := [], err := some e, calls := [] }
      | .ok msg =>
        -- Filter date and flags
        if !criteria.MatchDate msg.Date then searchLoop env m isUid criteria rest seqNum
        else if !criteria.MatchFlags msg.flagList then
          searchLoop env m isUid criteria rest seqNum
        else
          -- Filter body
          match env.osOpen msg.Filepath with
          | none => { ids := [], err := some .osOpen, calls := [.osOpen msg.Filepath] }
          | some f =>
            match env.messageRead f with
            | none =>
              { ids := [], err := some .messageRead,
                calls := [.osOpen msg.Filepath, .messageRead msg.Filepath] }
            | some e =>
              let calls : List BodyCall :=
                [.osOpen msg.Filepath, .messageRead msg.Filepath, .matchBody msg.Filepath]
              match criteria.Match e with
              | .error err => { ids := [], err := some err, calls := calls }
              | .ok false =>
                (searchLoop env m isUid criteria rest seqNum).after [] calls
              | .ok true =>
                -- Add message ID to results
                let id := if isUid then uid else seqNum
                (searchLoop env m isUid criteria rest seqNum).after [id] calls

/-- Source: `func (m *Mailbox) SearchMessages(isUid, criteria)`. -/
def Mailbox.SearchMessages (env : Env) (m : Mailbox) (isUid : Bool) (criteria : SearchCriteria) :
    SearchResult :=
  match m.index with
  | none => { ids := [], err := some .dbOpen, calls := [] }
  | some b => searchLoop env m isUid criteria b.entries 0

/-! ## Append (`mailbox.go`, lines 229-269) -/

/-- The conversion `uint32(id)` of a 64-bit sequence value. -/
def uidOf (id : Nat) : Nat := id % 4294967296

/-- The closure `CreateMessage` passes to `db.Update`: the message after the
UID and path assignments, and the closure's outcome. -/
def createTx (m : Mailbox) (msg : Message) (b : Bucket) : Message × Except Error Bucket :=
  let r := b.NextSequence
  let msg := { msg with Uid := uidOf r.1 }
  let k := formatUid msg.Uid
  let msg := { msg with Filepath := m.messageFilepath k }
  match jsonMarshal msg with
  | .error e => (msg, .error e)
  | .ok v => (msg, r.2.Put k v)

/-- What a `CreateMessage` call leaves behind: the returned error, the
mailbox, and the message value it built, which the caller does not get
(absent when the store did not open). -/
structure CreateResult where
  err : Option Error
  mailbox : Mailbox
  msg : Option Message
deriving DecidableEq, Repr

/-- Source: `func (m *Mailbox) CreateMessage(flags, date, body)`. -/
def Mailbox.CreateMessage (env : Env) (m : Mailbox) (flags : List String) (date : Time)
    (body : List (Fin 256)) : CreateResult :=
  match m.index with
  | none => { err := some .dbOpen, mailbox := m, msg := none }
  | some b =>
    let msg : Message :=
      { Filepath := "", SeqNum := 0, Uid := 0, Flags := [],
        Date := Time.zero }
    let msg := { msg.setFlagList flags with Date := date }
    -- Write metadata and assign a new UID
    let r := createTx m msg b
    match r.2 with
    | .error e => { err := some e, mailbox := m, msg := some r.1 }
    | .ok b' =>
      let m' := { m with index := some b' }
      -- Write message body
      match env.osCreate r.1.Filepath with
      | none => { err := some .osCreate, mailbox := m', msg := some r.1 }
      | some f =>
        if env.ioCopy f body then { err := none, mailbox := m', msg := some r.1 }
        else { err := some .ioCopy, mailbox := m', msg := some r.1 }

/-! ## Flag update (`mailbox.go`, lines 271-309) -/

/-- The closure `UpdateMessagesFlags` passes to `db.Update`: a cursor walk
over `entries` with the counter `seqNum`, acting on the working bucket `b`. -/
def updateLoop (env : Env) (m : Mailbox) (isUid : Bool) (seqSet : SeqSet) (operation : FlagsOp)
    (flags : List String) (b : Bucket) : List (Key × Value) → Nat → Except Error Bucket
  | [], _ => .ok b
  | (k, v) :: rest, seqNum =>
    -- Filter messages
    let uid := parseUid k
    let seqNum := (seqNum + 1) % 4294967296
    if skipped isUid seqSet seqNum uid then
      updateLoop env m isUid seqSet operation flags b rest seqNum
    else
      -- Read message metadata
      match m.message k v seqNum uid with
      | .error e => .error e
      | .ok msg =>
        -- Update flags
        let msg := msg.setFlagList (env.UpdateFlags msg.flagList operation flags)
        -- Write message metadata
        match jsonMarshal msg with
        | .error e => .error e
        | .ok v' => b.Put k v'

/-- Source: `func (m *Mailbox) UpdateMessagesFlags(isUid, seqSet, operation,
flags)`: the returned error and the mailbox afterwards. -/
def Mailbox.UpdateMessagesFlags (env : Env) (m : Mailbox) (isUid : Bool) (seqSet : SeqSet)
    (operation : FlagsOp) (flags : List String) : Option Error × Mailbox :=
  match m.index with
  | none => (some .dbOpen, m)
  | some b =>
    let r := updateLoop env m isUid seqSet operation flags b b.entries 0
    (errOf r, { m with index := some (commitOr b r) })

/-- Source: `func (m *Mailbox) CopyMessages(isUid, seqSet, dest)`. -/
def Mailbox.CopyMessages (_m : Mailbox) (_isUid : Bool) (_seqSet : SeqSet) (_dest : String) :
    Option Error :=
  some .copyUnsupported

/-! ## Expunge (`mailbox.go`, lines 315-356) -/

/-- The closure `Expunge` passes to `db.Update`: a cursor walk over `entries`
acting on the working bucket `b`, collecting the deleted keys. -/
def expungeLoop (m : Mailbox) : List (Key × Value) → Bucket → List Key →
    Except Error (Bucket × List Key)
  | [], b, deleted => .ok (b, deleted)
  | (k, v) :: rest, b, deleted =>
    -- Read message metadata
    match m.message k v 0 0 with
    | .error e => .error e
    | .ok msg =>
      -- Delete message if it has the \Deleted flag
      if msg.Flags.get DeletedFlag then
        match b.Delete k with
        | .error e => .error e
        | .ok b' => expungeLoop m rest b' (deleted ++ [k])
      else expungeLoop m rest b deleted

/-- The loop `for _, k := range deleted` of `Expunge`: the error of the first
`os.Remove` that fails. -/
def removeFiles (env : Env) (m : Mailbox) : List Key → Option Error
  | [] => none
  | k :: rest =>
    if env.osRemove (m.messageFilepath k) then removeFiles env m rest else some .osRemove

/-- Source: `func (m *Mailbox) Expunge()`: the returned error and the mailbox
afterwards. -/
def Mailbox.Expunge (env : Env) (m : Mailbox) : Option Error × Mailbox :=
  match m.index with
  | none => (some .dbOpen, m)
  | some b =>
    match expungeLoop m b.entries b [] with
    | .error e => (some e, m)
    | .ok (b', deleted) => (removeFiles env m deleted, { m with index := some b' })

/-! ## Vocabulary of the statements -/

/-- A stored value carries the flag `name`: it decodes and its flag map holds
`true` under `name`. -/
def Value.hasFlag (v : Value) (name : String) : Bool :=
  match v with
  | .record fl _ => FlagMap.get fl name
  | .corrupt _ => false

/-- A stored value decodes. -/
def Value.decodes (v : Value) : Bool :=
  match v with
  | .record _ _ => true
  | .corrupt _ => false

/-- The sequence number the cursor loops give the record at 0-based position
`i` of the walk: the uint32 counter after `i + 1` increments. -/
def seqNumAt (i : Nat) : Nat := (i + 1) % 4294967296

/-- `backendutil.UpdateFlags` as written in package go-imap: replace; append
the flags not yet present; drop the listed flags. -/
def goUpdateFlags (current : List String) (op : FlagsOp) (flags : List String) : List String :=
  if op = SetFlags then flags
  else if op = AddFlags then current ++ current.foldl (fun fl flag => fl.erase flag) flags
  else if op = RemoveFlags then current.filter (fun flag => !flags.contains flag)
  else current

/-- A path the operating system accepts: it holds no NUL byte. -/
def validPath (p : Filepath) : Bool :=
  !p.data.contains (Char.ofNat 0)

/-- An environment for evaluation: a file exists, opens and parses under
every path without a NUL byte (the handle is the length of the path), a path
with a NUL byte is refused, and `UpdateFlags` is the one of go-imap. -/
def goEnv : Env :=
  { osOpen := fun p => if validPath p then some p.length else none
    seekStart := fun _ => true
    statSize := fun _ => some 0
    osCreate := fun p => if validPath p then some p.length else none
    ioCopy := fun _ _ => true
    osRemove := fun p => validPath p
    messageRead := fun f => some f
    FetchEnvelope := fun _ => none
    FetchBodyStructure := fun _ _ => none
    NewBodySectionName := fun _ => none
    FetchBodySection := fun _ _ => none
    UpdateFlags := goUpdateFlags }

/-! ## Concrete index states -/

/-- A date used in the concrete index states. -/
def aDate : Time := { year := 2017, rest := 0 }

/-- An index with two records and no flags, under the 4-byte keys 1 and 2. -/
def twoBucket : Bucket :=
  { entries := [([0, 0, 0, 1], .record [] aDate), ([0, 0, 0, 2], .record [] aDate)],
    sequence := 2 }

/-- A mailbox over `twoBucket`. -/
def twoRecords : Mailbox := { Dirpath := "inbox", Name := "INBOX", index := some twoBucket }

/-- The sequence set "1:2". -/
def seqOneTwo : SeqSet := fun q => q == 1 || q == 2

/-- The sequence set "1". -/
def seqOne : SeqSet := fun q => q == 1

/-- An index with three records under the 4-byte keys 1, 2 and 3; the second
carries `\Deleted`, the third `\Seen`. -/
def threeBucket : Bucket :=
  { entries := [([0, 0, 0, 1], .record [] aDate),
                ([0, 0, 0, 2], .record [(DeletedFlag, true)] aDate),
                ([0, 0, 0, 3], .record [(SeenFlag, true)] aDate)],
    sequence := 3 }

/-- A mailbox over `threeBucket`. -/
def threeRecords : Mailbox := { Dirpath := "inbox", Name := "INBOX", index := some threeBucket }

/-- The 5-byte big-endian bytes of `i`. -/
def key5 (i : Nat) : Key :=
  [Fin.ofNat (i / 4294967296), Fin.ofNat (i / 16777216), Fin.ofNat (i / 65536),
   Fin.ofNat (i / 256), Fin.ofNat i]

/-- The records without flags under the 5-byte keys 0, 1, ..., n - 1. -/
def recordsUpTo (n : Nat) : List (Key × Value) :=
  (List.range n).map (fun i => (key5 i, Value.record [] aDate))

/-- An index with 2^32 + 1 records, no flags, under the 5-byte keys 0, 1,
..., 2^32. -/
def fullBucket : Bucket :=
  { entries := recordsUpTo 4294967297, sequence := 4294967297 }

/-- A mailbox over `fullBucket`. -/
def fullMailbox : Mailbox := { Dirpath := "inbox", Name := "INBOX", index := some fullBucket }

/-- The path a body call is made on. -/
def BodyCall.path : BodyCall → Filepath
  | .osOpen p => p
  | .messageRead p => p
  | .matchBody p => p

/-- The three metadata filters of `SearchMessages`, in its order, on the
record `(k, v)` found at 0-based position `i` of the walk: sequence number
and UID, then (once the record is read) date, then flags. -/
def passesFilters (m : Mailbox) (criteria : SearchCriteria) (i : Nat) (k : Key) (v : Value) :
    Bool :=
  criteria.MatchSeqNumAndUid (seqNumAt i) (parseUid k) &&
    match m.message k v (seqNumAt i) (parseUid k) with
    | .ok msg => criteria.MatchDate msg.Date && criteria.MatchFlags msg.flagList
    | .error _ => false

/-- The date and flag filters of `SearchMessages` on a stored value. -/
def metadataMatch (criteria : SearchCriteria) (v : Value) : Bool :=
  match v with
  | .record fl d => criteria.MatchDate d && criteria.MatchFlags (fl.map Prod.fst)
  | .corrupt _ => false

/-- The three calls `SearchMessages` makes on the body stored for key `k`. -/
def bodyCalls (m : Mailbox) (k : Key) : List BodyCall :=
  [.osOpen (m.messageFilepath k), .messageRead (m.messageFilepath k),
   .matchBody (m.messageFilepath k)]

/-- The criteria "flag \Seen present and date not before 2017", which hold no
sequence, UID or content term. -/
def seenSince2017 : SearchCriteria :=
  { MatchSeqNumAndUid := fun _ _ => true
    MatchDate := fun d => decide (2017 ≤ d.year)
    MatchFlags := fun fl => fl.contains SeenFlag
    Match := fun _ => .ok true }

/-- The number of parser calls (`message.Read`) among body calls. -/
def parserCalls (calls : List BodyCall) : Nat :=
  (calls.filter (fun c => match c with
    | .messageRead _ => true
    | _ => false)).length

/-- An index with three records under the one-byte keys "1", "2" and "3";
the second carries `\Deleted`, the third `\Seen`. -/
def asciiBucket : Bucket :=
  { entries := [([49], .record [] aDate),
                ([50], .record [(DeletedFlag, true)] aDate),
                ([51], .record [(SeenFlag, true)] aDate)],
    sequence := 3 }

/-- A mailbox over `asciiBucket` in the directory "inbox". -/
def asciiRecords : Mailbox := { Dirpath := "inbox", Name := "INBOX", index := some asciiBucket }

/-! ## Lemmas on the bucket -/

/-- No byte string is below itself. -/
theorem bytesLt_irrefl (k : List (Fin 256)) : bytesLt k k = false := by
  induction k with
  | nil => rfl
  | cons a as ih => simp [bytesLt, ih]

/-- In a list with ascending keys, the keys before a position are below the
key at that position. -/
theorem keys_before_lt (pre : List (Key × Value)) (k : Key) (v : Value)
    (post : List (Key × Value))
    (h : ((pre ++ (k, v) :: post).map Prod.fst).Pairwise (fun a c => bytesLt a c = true)) :
    ∀ p ∈ pre, bytesLt p.1 k = true := by
  intro p hp
  rw [List.map_append, List.pairwise_append] at h
  exact h.2.2 p.1 (List.mem_map_of_mem _ hp) k (by simp)

/-- Writing under a key that is present replaces the value in place. -/
theorem putEntries_present (k : Key) (v v' : Value) (post : List (Key × Value)) :
    ∀ pre : List (Key × Value), (∀ p ∈ pre, bytesLt p.1 k = true) →
      putEntries k v' (pre ++ (k, v) :: post) = pre ++ (k, v') :: post := by
  intro pre
  induction pre with
  | nil => intro _; simp [putEntries, bytesLt_irrefl]
  | cons p pre ih =>
    intro h
    obtain ⟨pk, pv⟩ := p
    have hp : bytesLt pk k = true := h (pk, pv) (by simp)
    have hrest : ∀ q ∈ pre, bytesLt q.1 k = true := fun q hq => h q (by simp [hq])
    simp [putEntries, hp, ih hrest]

/-- Deleting a key that is present removes exactly its entry. -/
theorem deleteEntries_present (k : Key) (v : Value) (post : List (Key × Value)) :
    ∀ pre : List (Key × Value), (∀ p ∈ pre, bytesLt p.1 k = true) →
      deleteEntries k (pre ++ (k, v) :: post) = pre ++ post := by
  intro pre
  induction pre with
  | nil => intro _; simp [deleteEntries, bytesLt_irrefl]
  | cons p pre ih =>
    intro h
    obtain ⟨pk, pv⟩ := p
    have hp : bytesLt pk k = true := h (pk, pv) (by simp)
    have hrest : ∀ q ∈ pre, bytesLt q.1 k = true := fun q hq => h q (by simp [hq])
    simp [deleteEntries, hp, ih hrest]

/-- The uint32 counter after one more increment. -/
theorem counter_step (n : Nat) : (n % 4294967296 + 1) % 4294967296 = seqNumAt n := by
  unfold seqNumAt
  omega

/-- Replacing the entry at one position leaves the other positions alone. -/
theorem getElem?_replace_ne {α : Type} (x y : α) (post : List α) :
    ∀ (pre : List α) (i : Nat), i ≠ pre.length →
      (pre ++ y :: post)[i]? = (pre ++ x :: post)[i]? := by
  intro pre
  induction pre with
  | nil =>
    intro i hi
    cases i with
    | zero => simp at hi
    | succ j => simp
  | cons p pre ih =>
    intro i hi
    cases i with
    | zero => simp
    | succ j =>
      have hj : j ≠ pre.length := by
        intro h
        apply hi
        simp [h]
      simpa using ih j hj

/-- The entry found at the position right after `pre`. -/
theorem getElem?_at_length {α : Type} (pre : List α) (x : α) (post : List α) :
    (pre ++ x :: post)[pre.length]? = some x := by
  induction pre with
  | nil => simp
  | cons p pre ih => simpa using ih

/-! ## Flag update -/

/-- What the closure of `UpdateMessagesFlags` commits: nothing, or one value
rewritten, under its own key, at a position the selector did not skip. -/
theorem updateLoop_spec (env : Env) (m : Mailbox) (isUid : Bool) (seqSet : SeqSet)
    (operation : FlagsOp) (flags : List String) (b : Bucket) (hwf : b.WF) :
    ∀ (rest pre : List (Key × Value)), b.entries = pre ++ rest →
      ∀ b', updateLoop env m isUid seqSet operation flags b rest (pre.length % 4294967296)
          = .ok b' →
        b' = b ∨ ∃ pre' k v v' post, b.entries = pre' ++ (k, v) :: post ∧
          skipped isUid seqSet (seqNumAt pre'.length) (parseUid k) = false ∧
          b' = { entries := pre' ++ (k, v') :: post, sequence := b.sequence } := by
  intro rest
  induction rest with
  | nil =>
    intro pre _ b' h
    simp only [updateLoop, Except.ok.injEq] at h
    exact Or.inl h.symm
  | cons e rest ih =>
    intro pre hsplit b' h
    obtain ⟨k, v⟩ := e
    simp only [updateLoop, counter_step] at h
    by_cases hskip : skipped isUid seqSet (seqNumAt pre.length) (parseUid k) = true
    · rw [if_pos hskip] at h
      have hsplit' : b.entries = (pre ++ [(k, v)]) ++ rest := by simp [hsplit]
      have hlen : seqNumAt pre.length = (pre ++ [(k, v)]).length % 4294967296 := by
        simp [seqNumAt]
      rw [hlen] at h
      exact ih (pre ++ [(k, v)]) hsplit' b' h
    · rw [if_neg hskip] at h
      right
      cases hmsg : m.message k v (seqNumAt pre.length) (parseUid k) with
      | error e => rw [hmsg] at h; simp at h
      | ok msg =>
        rw [hmsg] at h
        simp only at h
        cases hjson : jsonMarshal
            (msg.setFlagList (env.UpdateFlags msg.flagList operation flags)) with
        | error e => rw [hjson] at h; simp at h
        | ok v' =>
          rw [hjson] at h
          simp only [Bucket.Put] at h
          split at h
          · simp at h
          · split at h
            · simp at h
            · simp only [Except.ok.injEq] at h
              refine ⟨pre, k, v, v', rest, hsplit, by simpa using hskip, ?_⟩
              have hlt : ∀ p ∈ pre, bytesLt p.1 k = true := by
                apply keys_before_lt pre k v rest
                have := hwf
                unfold Bucket.WF at this
                rwa [hsplit] at this
              rw [← h, hsplit, putEntries_present k v v' rest pre hlt]

/-- C3 (stub codec): decoding the key of UID 1 yields 0, so the round trip
`parseUid (formatUid u) = u` fails at `u = 1`. -/
theorem parseUid_formatUid_one : parseUid (formatUid 1) = 0 ∧ parseUid (formatUid 1) ≠ 1 := by
  decide

/-- C4 (stub codec): the keys of UIDs 0 and 1 are the same empty byte string,
so `0 < 1` is not reflected by the byte order of the keys. -/
theorem formatUid_zero_one_not_lt :
    formatUid 0 = [] ∧ formatUid 1 = [] ∧ bytesLt (formatUid 0) (formatUid 1) = false := by
  decide

/-- C2: `UpdateMessagesFlags` keeps the key list and the sequence counter of
the index, and every record the selector skips (tested, as the loop does, on
the record's uint32 sequence counter or on its decoded UID) keeps its stored
value, flags and date included. -/
theorem UpdateMessagesFlags_frame (env : Env) (m : Mailbox) (b : Bucket) (isUid : Bool)
    (seqSet : SeqSet) (operation : FlagsOp) (flags : List String)
    (hm : m.index = some b) (hwf : b.WF) :
    ∃ b', (m.UpdateMessagesFlags env isUid seqSet operation flags).2
        = { m with index := some b' } ∧
      b'.entries.map Prod.fst = b.entries.map Prod.fst ∧
      b'.sequence = b.sequence ∧
      ∀ i k v, b.entries[i]? = some (k, v) →
        skipped isUid seqSet (seqNumAt i) (parseUid k) = true →
        b'.entries[i]? = some (k, v) := by
  simp only [Mailbox.UpdateMessagesFlags, hm]
  cases hr : updateLoop env m isUid seqSet operation flags b b.entries 0 with
  | error e => exact ⟨b, by simp [commitOr], rfl, rfl, fun i k v h _ => h⟩
  | ok b' =>
    refine ⟨b', by simp [commitOr], ?_⟩
    have hspec := updateLoop_spec env m isUid seqSet operation flags b hwf b.entries []
      (by simp) b' (by simpa using hr)
    rcases hspec with h | ⟨pre, k, v, v', post, hsplit, hsel, hb'⟩
    · subst h
      exact ⟨rfl, rfl, fun i k v h _ => h⟩
    · subst hb'
      refine ⟨by simp [hsplit], rfl, ?_⟩
      intro i k0 v0 hi hskip
      have hne : i ≠ pre.length := by
        intro hEq
        subst hEq
        rw [hsplit, getElem?_at_length] at hi
        simp only [Option.some.injEq, Prod.mk.injEq] at hi
        rw [hi.1, hskip] at hsel
        exact Bool.noConfusion hsel
      show (pre ++ (k, v') :: post)[i]? = some (k0, v0)
      rw [getElem?_replace_ne (k, v) (k, v') post pre i hne, ← hsplit]
      exact hi

/-- Witness for C2 on the two-record index with the sequence set "1". -/
theorem UpdateMessagesFlags_frame_witness :
    twoRecords.index = some twoBucket ∧ twoBucket.WF ∧
    ∃ b', (twoRecords.UpdateMessagesFlags goEnv false seqOne AddFlags [SeenFlag]).2
        = { twoRecords with index := some b' } ∧
      b'.entries.map Prod.fst = twoBucket.entries.map Prod.fst ∧
      b'.sequence = twoBucket.sequence ∧
      ∀ i k v, twoBucket.entries[i]? = some (k, v) →
        skipped false seqOne (seqNumAt i) (parseUid k) = true →
        b'.entries[i]? = some (k, v) :=
  ⟨rfl, by simp [Bucket.WF, twoBucket, bytesLt],
    UpdateMessagesFlags_frame goEnv twoRecords twoBucket false seqOne AddFlags [SeenFlag] rfl
      (by simp [Bucket.WF, twoBucket, bytesLt])⟩

/-- C1 (early return): with two records that both match the sequence set
"1:2" and the operation "+FLAGS (\Seen)", the call returns no error, the
first record gains the flag and the second record keeps its empty flag set. -/
theorem UpdateMessagesFlags_only_first :
    (twoRecords.UpdateMessagesFlags goEnv false seqOneTwo AddFlags [SeenFlag]).1 = none ∧
    (twoRecords.UpdateMessagesFlags goEnv false seqOneTwo AddFlags [SeenFlag]).2.index =
      some { entries := [([0, 0, 0, 1], .record [(SeenFlag, true)] aDate),
                         ([0, 0, 0, 2], .record [] aDate)],
             sequence := 2 } ∧
    skipped false seqOneTwo (seqNumAt 1) (parseUid [0, 0, 0, 2]) = false ∧
    goUpdateFlags [] AddFlags [SeenFlag] = [SeenFlag] := by
  decide

/-! ## Expunge -/

/-- The closure of `Expunge` on a working bucket whose entries are the kept
part `pre` followed by the part `rest` still to be walked. -/
theorem expungeLoop_spec (m : Mailbox) (seq : Nat) :
    ∀ (rest pre : List (Key × Value)) (deleted : List Key),
      ((pre ++ rest).map Prod.fst).Pairwise (fun a c => bytesLt a c = true) →
      (∀ e ∈ rest, e.2.decodes = true) →
      expungeLoop m rest { entries := pre ++ rest, sequence := seq } deleted =
        .ok ({ entries := pre ++ rest.filter (fun e => !e.2.hasFlag DeletedFlag),
               sequence := seq },
             deleted ++ (rest.filter (fun e => e.2.hasFlag DeletedFlag)).map Prod.fst) := by
  intro rest
  induction rest with
  | nil => intro pre deleted _ _; simp [expungeLoop]
  | cons e rest ih =>
    intro pre deleted hsorted hdec
    obtain ⟨k, v⟩ := e
    have hv : v.decodes = true := hdec (k, v) (by simp)
    have hrest : ∀ e ∈ rest, e.2.decodes = true := fun e he => hdec e (by simp [he])
    cases v with
    | corrupt raw => simp [Value.decodes] at hv
    | record fl d =>
      simp only [expungeLoop, Mailbox.message, jsonUnmarshal]
      by_cases hflag : FlagMap.get fl DeletedFlag = true
      · have hlt : ∀ p ∈ pre, bytesLt p.1 k = true :=
          keys_before_lt pre k (.record fl d) rest hsorted
        have hsub : ((pre ++ rest).map Prod.fst).Pairwise (fun a c => bytesLt a c = true) := by
          apply List.Pairwise.sublist _ hsorted
          apply List.Sublist.map
          exact List.Sublist.append (List.Sublist.refl pre) (List.sublist_cons_self _ _)
        simp only [hflag, if_true, Bucket.Delete,
          deleteEntries_present k (.record fl d) rest pre hlt]
        rw [ih pre (deleted ++ [k]) hsub hrest]
        simp [Value.hasFlag, hflag]
      · have hsorted' : (((pre ++ [(k, Value.record fl d)]) ++ rest).map Prod.fst).Pairwise
            (fun a c => bytesLt a c = true) := by simpa using hsorted
        have hih := ih (pre ++ [(k, Value.record fl d)]) deleted hsorted' hrest
        simp only [List.append_assoc, List.singleton_append] at hih
        simp only [hflag, Bool.false_eq_true, if_false, hih]
        simp [Value.hasFlag, hflag]

/-- C7: on an index whose records all decode, the metadata phase of `Expunge`
commits, and the index is then exactly the records that did not carry
`\Deleted`, in their order and with their keys and values; the sequence
counter is kept. -/
theorem Expunge_index (env : Env) (m : Mailbox) (b : Bucket) (hm : m.index = some b)
    (hwf : b.WF) (hdec : ∀ e ∈ b.entries, e.2.decodes = true) :
    (m.Expunge env).1 ∈ [none, some Error.osRemove] ∧
    (m.Expunge env).2.Dirpath = m.Dirpath ∧ (m.Expunge env).2.Name = m.Name ∧
    (m.Expunge env).2.index = some
      { entries := b.entries.filter (fun e => !e.2.hasFlag DeletedFlag),
        sequence := b.sequence } := by
  have h := expungeLoop_spec m b.sequence b.entries [] [] (by simpa [Bucket.WF] using hwf) hdec
  simp only [List.nil_append] at h
  simp only [Mailbox.Expunge, hm]
  have hb : b = { entries := b.entries, sequence := b.sequence } := rfl
  rw [hb, h]
  refine ⟨?_, rfl, rfl, rfl⟩
  have hfiles : ∀ ks : List Key, removeFiles env m ks ∈ [none, some Error.osRemove] := by
    intro ks
    induction ks with
    | nil => simp [removeFiles]
    | cons k ks ih =>
      simp only [removeFiles]
      split
      · exact ih
      · simp
  exact hfiles _

/-- Witness for C7 on the three-record index: the record under key 2 goes,
the records under keys 1 and 3 stay. -/
theorem Expunge_index_witness :
    threeRecords.index = some threeBucket ∧ threeBucket.WF ∧
    (∀ e ∈ threeBucket.entries, e.2.decodes = true) ∧
    (threeRecords.Expunge goEnv).1 ∈ [none, some Error.osRemove] ∧
    (threeRecords.Expunge goEnv).2.Dirpath = threeRecords.Dirpath ∧
    (threeRecords.Expunge goEnv).2.Name = threeRecords.Name ∧
    (threeRecords.Expunge goEnv).2.index = some
      { entries := threeBucket.entries.filter (fun e => !e.2.hasFlag DeletedFlag),
        sequence := threeBucket.sequence } :=
  ⟨rfl, by simp [Bucket.WF, threeBucket, bytesLt], by decide,
    Expunge_index goEnv threeRecords threeBucket rfl
      (by simp [Bucket.WF, threeBucket, bytesLt]) (by decide)⟩

/-! ## Listing -/

/-- One turn of the item loop keeps the sequence number of the projection. -/
theorem toIMAPItem_seqNum (env : Env) (msg : Message) (st st' : ImapMessage × Option File)
    (item : String) (h : toIMAPItem env msg st item = some st') :
    st'.1.SeqNum = st.1.SeqNum := by
  unfold toIMAPItem at h
  repeat' split at h
  all_goals (try simp at h)
  all_goals (subst h; rfl)

/-- The item loop keeps the sequence number of the projection. -/
theorem toIMAPLoop_seqNum (env : Env) (msg : Message) :
    ∀ (items : List String) (st st' : ImapMessage × Option File),
      toIMAPLoop env msg items st = some st' → st'.1.SeqNum = st.1.SeqNum := by
  intro items
  induction items with
  | nil =>
    intro st st' h
    simp only [toIMAPLoop, Option.some.injEq] at h
    rw [h]
  | cons item items ih =>
    intro st st' h
    simp only [toIMAPLoop] at h
    cases hitem : toIMAPItem env msg st item with
    | none => rw [hitem] at h; simp at h
    | some st1 =>
      rw [hitem] at h
      rw [ih st1 st' h, toIMAPItem_seqNum env msg st st1 item hitem]

/-- The projection carries the sequence number of the message record. -/
theorem toIMAP_seqNum (env : Env) (msg : Message) (items : List String) (im : ImapMessage)
    (h : msg.toIMAP env items = some im) : im.SeqNum = msg.SeqNum := by
  simp only [Message.toIMAP, Option.map_eq_some'] at h
  obtain ⟨st, hst, rfl⟩ := h
  exact toIMAPLoop_seqNum env msg items _ st hst

/-- The message read from an entry carries the sequence number handed in. -/
theorem message_seqNum (m : Mailbox) (k : Key) (v : Value) (seqNum uid : Nat) (msg : Message)
    (h : m.message k v seqNum uid = .ok msg) : msg.SeqNum = seqNum := by
  cases v with
  | corrupt raw => simp [Mailbox.message, jsonUnmarshal] at h
  | record fl d =>
    simp only [Mailbox.message, jsonUnmarshal, Except.ok.injEq] at h
    rw [← h]

/-- The messages `ListMessages` sends come, in walk order, from positions of
the walk; each is the projection of the record at its position, read with the
uint32 counter value of that position. -/
theorem listLoop_spec (env : Env) (m : Mailbox) (isUid : Bool) (seqSet : SeqSet)
    (items : List String) (all : List (Key × Value)) :
    ∀ (rest pre : List (Key × Value)), all = pre ++ rest →
      ∃ is : List Nat, is.Sublist (List.range' pre.length rest.length) ∧
        List.Forall₂
          (fun i im => ∃ k v msg, all[i]? = some (k, v) ∧
            skipped isUid seqSet (seqNumAt i) (parseUid k) = false ∧
            m.message k v (seqNumAt i) (parseUid k) = .ok msg ∧
            msg.toIMAP env items = some im)
          is (listLoop env m isUid seqSet items rest (pre.length % 4294967296)).1 := by
  intro rest
  induction rest with
  | nil => intro pre _; exact ⟨[], by simp, by simp [listLoop]⟩
  | cons e rest ih =>
    intro pre hsplit
    obtain ⟨k, v⟩ := e
    have hsplit' : all = (pre ++ [(k, v)]) ++ rest := by simp [hsplit]
    obtain ⟨is, hsub, hall⟩ := ih (pre ++ [(k, v)]) hsplit'
    have hlen : (pre ++ [(k, v)]).length % 4294967296 = seqNumAt pre.length := by
      simp [seqNumAt]
    rw [hlen] at hall
    simp only [List.length_append, List.length_singleton] at hsub
    simp only [listLoop, counter_step, List.length_cons, List.range'_succ]
    by_cases hskip : skipped isUid seqSet (seqNumAt pre.length) (parseUid k) = true
    · rw [if_pos hskip]
      exact ⟨is, hsub.cons _, hall⟩
    · rw [if_neg hskip]
      cases hmsg : m.message k v (seqNumAt pre.length) (parseUid k) with
      | error err => exact ⟨[], by simp, by simp⟩
      | ok msg =>
        simp only []
        cases him : msg.toIMAP env items with
        | none => exact ⟨is, hsub.cons _, hall⟩
        | some im =>
          simp only []
          refine ⟨pre.length :: is, hsub.cons₂ _, ?_⟩
          refine List.Forall₂.cons ?_ hall
          refine ⟨k, v, msg, ?_, by simpa using hskip, hmsg, him⟩
          rw [hsplit]
          exact getElem?_at_length pre (k, v) rest

/-- Two lists related elementwise have equal images under functions that
agree on related elements. -/
theorem map_eq_of_forall₂ {α β γ : Type} (f : α → γ) (g : β → γ) (R : α → β → Prop)
    (h : ∀ a b, R a b → g b = f a) :
    ∀ (l₁ : List α) (l₂ : List β), List.Forall₂ R l₁ l₂ → l₂.map g = l₁.map f := by
  intro l₁ l₂ hall
  induction hall with
  | nil => rfl
  | cons hab _ ih => simp [h _ _ hab, ih]

/-- Listing by sequence number with no item requested, on records that all
decode: the sequence numbers sent are the uint32 counter values of the
positions, in order, that the sequence set holds. -/
theorem listLoop_seqNums (env : Env) (m : Mailbox) (seqSet : SeqSet) :
    ∀ (rest : List (Key × Value)) (c : Nat), (∀ e ∈ rest, e.2.decodes = true) →
      (listLoop env m false seqSet [] rest (c % 4294967296)).1.map ImapMessage.SeqNum =
        ((List.range' c rest.length).map seqNumAt).filter seqSet := by
  intro rest
  induction rest with
  | nil => intro c _; simp [listLoop]
  | cons e rest ih =>
    intro c hdec
    obtain ⟨k, v⟩ := e
    have hv : v.decodes = true := hdec (k, v) (by simp)
    have hrest : ∀ e ∈ rest, e.2.decodes = true := fun e he => hdec e (by simp [he])
    cases v with
    | corrupt raw => simp [Value.decodes] at hv
    | record fl d =>
      have hih := ih (c + 1) hrest
      have hc : (c + 1) % 4294967296 = seqNumAt c := rfl
      rw [hc] at hih
      cases hsel : seqSet (seqNumAt c) with
      | false =>
        simp [listLoop, counter_step, skipped, hsel, List.range'_succ, hih]
      | true =>
        simp [listLoop, counter_step, skipped, hsel, Mailbox.message, jsonUnmarshal,
          Message.toIMAP, toIMAPLoop, List.range'_succ, hih]

/-- The 5-byte big-endian keys ascend with the number they encode. -/
theorem key5_lt (a c : Nat) (hac : a < c) (hc : c < 1099511627776) :
    bytesLt (key5 a) (key5 c) = true := by
  have hda : a = a / 4294967296 % 256 * 4294967296 + a / 16777216 % 256 * 16777216
      + a / 65536 % 256 * 65536 + a / 256 % 256 * 256 + a % 256 := by
    have h1 : a / 256 / 256 = a / 65536 := Nat.div_div_eq_div_mul a 256 256
    have h2 : a / 65536 / 256 = a / 16777216 := Nat.div_div_eq_div_mul a 65536 256
    have h3 : a / 16777216 / 256 = a / 4294967296 := Nat.div_div_eq_div_mul a 16777216 256
    have h4 : a / 4294967296 / 256 = 0 := by
      rw [Nat.div_div_eq_div_mul]
      exact Nat.div_eq_of_lt (by omega)
    omega
  have hdc : c = c / 4294967296 % 256 * 4294967296 + c / 16777216 % 256 * 16777216
      + c / 65536 % 256 * 65536 + c / 256 % 256 * 256 + c % 256 := by
    have h1 : c / 256 / 256 = c / 65536 := Nat.div_div_eq_div_mul c 256 256
    have h2 : c / 65536 / 256 = c / 16777216 := Nat.div_div_eq_div_mul c 65536 256
    have h3 : c / 16777216 / 256 = c / 4294967296 := Nat.div_div_eq_div_mul c 16777216 256
    have h4 : c / 4294967296 / 256 = 0 := by
      rw [Nat.div_div_eq_div_mul]
      exact Nat.div_eq_of_lt (by omega)
    omega
  have ba4 : a / 4294967296 % 256 < 256 := Nat.mod_lt _ (by decide)
  have ba3 : a / 16777216 % 256 < 256 := Nat.mod_lt _ (by decide)
  have ba2 : a / 65536 % 256 < 256 := Nat.mod_lt _ (by decide)
  have ba1 : a / 256 % 256 < 256 := Nat.mod_lt _ (by decide)
  have ba0 : a % 256 < 256 := Nat.mod_lt _ (by decide)
  have bc4 : c / 4294967296 % 256 < 256 := Nat.mod_lt _ (by decide)
  have bc3 : c / 16777216 % 256 < 256 := Nat.mod_lt _ (by decide)
  have bc2 : c / 65536 % 256 < 256 := Nat.mod_lt _ (by decide)
  have bc1 : c / 256 % 256 < 256 := Nat.mod_lt _ (by decide)
  have bc0 : c % 256 < 256 := Nat.mod_lt _ (by decide)
  simp only [key5, bytesLt, Fin.ofNat, Bool.or_eq_true, Bool.and_eq_true, decide_eq_true_eq,
    beq_iff_eq, Fin.lt_def, Fin.ext_iff, Bool.or_false, Bool.and_false]
  generalize a / 4294967296 % 256 = x4 at *
  generalize a / 16777216 % 256 = x3 at *
  generalize a / 65536 % 256 = x2 at *
  generalize a / 256 % 256 = x1 at *
  generalize a % 256 = x0 at *
  generalize c / 4294967296 % 256 = y4 at *
  generalize c / 16777216 % 256 = y3 at *
  generalize c / 65536 % 256 = y2 at *
  generalize c / 256 % 256 = y1 at *
  generalize c % 256 = y0 at *
  omega

/-- The list `recordsUpTo n` has `n` records. -/
theorem recordsUpTo_length (n : Nat) : (recordsUpTo n).length = n := by
  simp [recordsUpTo]

/-- Every record of `recordsUpTo n` decodes. -/
theorem recordsUpTo_decodes (n : Nat) : ∀ e ∈ recordsUpTo n, e.2.decodes = true := by
  intro e he
  simp only [recordsUpTo, List.mem_map] at he
  obtain ⟨i, _, rfl⟩ := he
  rfl

/-- The keys of `recordsUpTo n` ascend, for `n` up to 2^40. -/
theorem recordsUpTo_sorted (n : Nat) (hn : n ≤ 1099511627776) :
    ((recordsUpTo n).map Prod.fst).Pairwise (fun a c => bytesLt a c = true) := by
  simp only [recordsUpTo, List.map_map, List.pairwise_map]
  apply List.Pairwise.imp_of_mem _ (List.pairwise_lt_range n)
  intro a c _ hc hac
  exact key5_lt a c hac (Nat.lt_of_lt_of_le (List.mem_range.mp hc) hn)

/-- The index of 2^32 + 1 records is a well-formed bucket. -/
theorem fullBucket_WF : fullBucket.WF := by
  have hle : (4294967297 : Nat) ≤ 1099511627776 := by omega
  have hsorted := recordsUpTo_sorted 4294967297 hle
  unfold Bucket.WF fullBucket
  simp only []
  exact hsorted

/-- Among the counter values of the positions 0, ..., n + 1, for
`n + 2 = 2^32 + 1`, the sequence set "1" holds those of the first and of the
last position. -/
theorem seqOne_positions (n : Nat) (hn : n + 1 = 4294967296) :
    ((List.range' 0 (n + 2)).map seqNumAt).filter seqOne = [1, 1] := by
  have hmid : ((List.range' 1 n).map seqNumAt).filter seqOne = [] := by
    rw [List.filter_eq_nil_iff]
    intro q hq
    simp only [List.mem_map, List.mem_range'_1] at hq
    obtain ⟨i, ⟨h1, h2⟩, rfl⟩ := hq
    simp only [seqOne, seqNumAt, beq_iff_eq]
    omega
  have hsplit : List.range' 0 (n + 2) = 0 :: (List.range' 1 n ++ [n + 1]) := by
    rw [List.range'_succ, List.range'_concat]
    simp [Nat.add_comm]
  have hfirst : seqOne (seqNumAt 0) = true := by decide
  have hlast : seqOne (seqNumAt (n + 1)) = true := by
    simp only [seqOne, seqNumAt, beq_iff_eq]
    omega
  have hone : seqNumAt 0 = 1 := by decide
  have hone' : seqNumAt (n + 1) = 1 := by
    simp only [seqNumAt]
    omega
  rw [hsplit, List.map_cons, List.map_append, List.filter_cons, if_pos hfirst,
    List.filter_append, hmid, List.map_singleton, List.filter_cons, if_pos hlast, hone, hone']
  rfl

/-- The sequence numbers sent when the index of 2^32 + 1 records is listed
with the sequence set "1". -/
theorem fullMailbox_seqNums :
    (fullMailbox.ListMessages goEnv false seqOne []).1.map ImapMessage.SeqNum = [1, 1] := by
  have h := listLoop_seqNums goEnv fullMailbox seqOne (recordsUpTo 4294967297) 0
    (recordsUpTo_decodes 4294967297)
  rw [recordsUpTo_length] at h
  have hpos := seqOne_positions 4294967295 (by omega)
  have hlen : (4294967295 : Nat) + 2 = 4294967297 := by omega
  rw [hlen] at hpos
  rw [hpos] at h
  simp only [Mailbox.ListMessages, fullMailbox, fullBucket]
  exact h

/-- C8 (counter wrap): on the well-formed index of 2^32 + 1 records, listing
by sequence number with the sequence set "1" sends two messages, both
carrying the sequence number 1: the second comes from the record of rank
2^32 + 1, so it does not carry its rank, and the numbers sent do not ascend. -/
theorem ListMessages_seqNum_wraps :
    fullMailbox.index = some fullBucket ∧ fullBucket.WF ∧
    fullBucket.entries.length = 4294967297 ∧
    (fullMailbox.ListMessages goEnv false seqOne []).1.map ImapMessage.SeqNum = [1, 1] := by
  refine ⟨rfl, fullBucket_WF, ?_, fullMailbox_seqNums⟩
  unfold fullBucket
  simp only []
  exact recordsUpTo_length 4294967297

/-- C8 (amended): on an index of fewer than 2^32 records, the messages
`ListMessages` sends carry strictly ascending sequence numbers, and they come
in walk order from positions `i` of the whole index: the message from
position `i` carries `i + 1`, the 1-based rank of the record there, and is the
projection of that record, which the selector did not skip. -/
theorem ListMessages_seqNum_rank (env : Env) (m : Mailbox) (b : Bucket) (isUid : Bool)
    (seqSet : SeqSet) (items : List String) (hm : m.index = some b)
    (hlen : b.entries.length < 4294967296) :
    ((m.ListMessages env isUid seqSet items).1.map ImapMessage.SeqNum).Pairwise
      (fun a c => a < c) ∧
    ∃ is : List Nat, is.Sublist (List.range b.entries.length) ∧
      List.Forall₂
        (fun i im => im.SeqNum = i + 1 ∧ ∃ k v msg, b.entries[i]? = some (k, v) ∧
          skipped isUid seqSet (i + 1) (parseUid k) = false ∧
          m.message k v (i + 1) (parseUid k) = .ok msg ∧
          msg.toIMAP env items = some im)
        is (m.ListMessages env isUid seqSet items).1 := by
  obtain ⟨is, hsub, hall⟩ :=
    listLoop_spec env m isUid seqSet items b.entries b.entries [] (by simp)
  simp only [List.length_nil, Nat.zero_mod, ← List.range_eq_range'] at hsub hall
  have hall' : List.Forall₂
      (fun i im => im.SeqNum = i + 1 ∧ ∃ k v msg, b.entries[i]? = some (k, v) ∧
        skipped isUid seqSet (i + 1) (parseUid k) = false ∧
        m.message k v (i + 1) (parseUid k) = .ok msg ∧
        msg.toIMAP env items = some im)
      is (listLoop env m isUid seqSet items b.entries 0).1 := by
    apply List.Forall₂.imp _ hall
    intro i im ⟨k, v, msg, hi, hskip, hmsg, him⟩
    have hlt : i < b.entries.length := (List.getElem?_eq_some.mp hi).1
    have hseq : seqNumAt i = i + 1 := by
      unfold seqNumAt
      exact Nat.mod_eq_of_lt (by omega)
    rw [hseq] at hskip hmsg
    refine ⟨?_, k, v, msg, hi, hskip, hmsg, him⟩
    rw [toIMAP_seqNum env msg items im him, message_seqNum m k v (i + 1) (parseUid k) msg hmsg]
  simp only [Mailbox.ListMessages, hm]
  refine ⟨?_, is, hsub, hall'⟩
  rw [map_eq_of_forall₂ (fun i => i + 1) ImapMessage.SeqNum _ (fun i im h => h.1) is _ hall']
  apply List.Pairwise.map (fun i => i + 1) _ ((List.pairwise_lt_range _).sublist hsub)
  intro a c hac
  show a + 1 < c + 1
  omega

/-- Witness for C8 (amended) on the three-record index, listed by sequence
number with the sequence set "1" and the items UID and FLAGS. -/
theorem ListMessages_seqNum_rank_witness :
    threeRecords.index = some threeBucket ∧ threeBucket.entries.length < 4294967296 ∧
    ((threeRecords.ListMessages goEnv false seqOne [UidMsgAttr, FlagsMsgAttr]).1.map
      ImapMessage.SeqNum).Pairwise (fun a c => a < c) ∧
    ∃ is : List Nat, is.Sublist (List.range threeBucket.entries.length) ∧
      List.Forall₂
        (fun i im => im.SeqNum = i + 1 ∧ ∃ k v msg, threeBucket.entries[i]? = some (k, v) ∧
          skipped false seqOne (i + 1) (parseUid k) = false ∧
          threeRecords.message k v (i + 1) (parseUid k) = .ok msg ∧
          msg.toIMAP goEnv [UidMsgAttr, FlagsMsgAttr] = some im)
        is (threeRecords.ListMessages goEnv false seqOne [UidMsgAttr, FlagsMsgAttr]).1 :=
  ⟨rfl, by decide,
    ListMessages_seqNum_rank goEnv threeRecords threeBucket false seqOne [UidMsgAttr, FlagsMsgAttr] rfl
      (by decide)⟩

/-! ## Search -/

/-- The message read from an entry carries the path of the entry's key. -/
theorem message_filepath (m : Mailbox) (k : Key) (v : Value) (seqNum uid : Nat) (msg : Message)
    (h : m.message k v seqNum uid = .ok msg) : msg.Filepath = m.messageFilepath k := by
  cases v with
  | corrupt raw => simp [Mailbox.message, jsonUnmarshal] at h
  | record fl d =>
    simp only [Mailbox.message, jsonUnmarshal, Except.ok.injEq] at h
    rw [← h]

/-- Every body call of the search loop is made on the file of a record of the
walk that passed the three metadata filters. -/
theorem searchLoop_calls (env : Env) (m : Mailbox) (isUid : Bool) (criteria : SearchCriteria)
    (all : List (Key × Value)) :
    ∀ (rest pre : List (Key × Value)), all = pre ++ rest →
      ∀ c ∈ (searchLoop env m isUid criteria rest (pre.length % 4294967296)).calls,
        ∃ i k v, all[i]? = some (k, v) ∧ c.path = m.messageFilepath k ∧
          passesFilters m criteria i k v = true := by
  intro rest
  induction rest with
  | nil => intro pre _ c hc; simp [searchLoop] at hc
  | cons e rest ih =>
    intro pre hsplit c hc
    obtain ⟨k, v⟩ := e
    have hsplit' : all = (pre ++ [(k, v)]) ++ rest := by simp [hsplit]
    have hlen : (pre ++ [(k, v)]).length % 4294967296 = seqNumAt pre.length := by
      simp [seqNumAt]
    have hrest := ih (pre ++ [(k, v)]) hsplit'
    rw [hlen] at hrest
    have hhere : all[pre.length]? = some (k, v) := by
      rw [hsplit]
      exact getElem?_at_length pre (k, v) rest
    simp only [searchLoop, counter_step] at hc
    cases hseq : criteria.MatchSeqNumAndUid (seqNumAt pre.length) (parseUid k) with
    | false =>
      simp only [hseq, Bool.not_false, if_true] at hc
      exact hrest c hc
    | true =>
      simp only [hseq, Bool.not_true, Bool.false_eq_true, if_false] at hc
      cases hmsg : m.message k v (seqNumAt pre.length) (parseUid k) with
      | error err => simp [hmsg] at hc
      | ok msg =>
        simp only [hmsg] at hc
        have hpath := message_filepath m k v _ _ msg hmsg
        cases hdate : criteria.MatchDate msg.Date with
        | false =>
          simp only [hdate, Bool.not_false, if_true] at hc
          exact hrest c hc
        | true =>
          simp only [hdate, Bool.not_true, Bool.false_eq_true, if_false] at hc
          cases hflags : criteria.MatchFlags msg.flagList with
          | false =>
            simp only [hflags, Bool.not_false, if_true] at hc
            exact hrest c hc
          | true =>
            simp only [hflags, Bool.not_true, Bool.false_eq_true, if_false] at hc
            have hpass : passesFilters m criteria pre.length k v = true := by
              simp [passesFilters, hseq, hmsg, hdate, hflags]
            have hmine : ∀ c' ∈ [BodyCall.osOpen msg.Filepath, BodyCall.messageRead msg.Filepath,
                BodyCall.matchBody msg.Filepath],
                ∃ i k v, all[i]? = some (k, v) ∧ c'.path = m.messageFilepath k ∧
                  passesFilters m criteria i k v = true := by
              intro c' hc'
              refine ⟨pre.length, k, v, hhere, ?_, hpass⟩
              simp only [List.mem_cons, List.mem_singleton, List.not_mem_nil, or_false] at hc'
              rcases hc' with h | h | h <;> (subst h; exact hpath)
            cases hopen : env.osOpen msg.Filepath with
            | none =>
              simp only [hopen, List.mem_singleton] at hc
              exact hmine c (by simp [hc])
            | some f =>
              simp only [hopen] at hc
              cases hread : env.messageRead f with
              | none =>
                simp only [hread] at hc
                exact hmine c (by
                  simp only [List.mem_cons, List.mem_singleton, List.not_mem_nil,
                    or_false] at hc ⊢
                  rcases hc with h | h <;> simp [h])
              | some ent =>
                simp only [hread] at hc
                cases hmatch : criteria.Match ent with
                | error err =>
                  simp only [hmatch] at hc
                  exact hmine c hc
                | ok ok =>
                  cases ok with
                  | false =>
                    simp only [hmatch, SearchResult.after, List.mem_append] at hc
                    rcases hc with h | h
                    · exact hmine c h
                    · exact hrest c h
                  | true =>
                    simp only [hmatch, SearchResult.after, List.mem_append] at hc
                    rcases hc with h | h
                    · exact hmine c h
                    · exact hrest c h

/-- C9: every call `SearchMessages` makes on a body file (`os.Open`, the
parser `message.Read`, the content matcher `backendutil.Match`) is made on
the body path of a record of the index that passed the sequence-number/UID
filter, was read, and passed the date and the flag filter. -/
theorem SearchMessages_body_calls (env : Env) (m : Mailbox) (b : Bucket) (isUid : Bool)
    (criteria : SearchCriteria) (hm : m.index = some b) :
    ∀ c ∈ (m.SearchMessages env isUid criteria).calls,
      ∃ i k v, b.entries[i]? = some (k, v) ∧ c.path = m.messageFilepath k ∧
        passesFilters m criteria i k v = true := by
  simp only [Mailbox.SearchMessages, hm]
  exact searchLoop_calls env m isUid criteria b.entries b.entries [] (by simp)

/-- Witness for C9 on the index with keys "1", "2", "3" and the criteria
"\Seen present and date not before 2017". -/
theorem SearchMessages_body_calls_witness :
    asciiRecords.index = some asciiBucket ∧
    ∀ c ∈ (asciiRecords.SearchMessages goEnv true seenSince2017).calls,
      ∃ i k v, asciiBucket.entries[i]? = some (k, v) ∧
        c.path = asciiRecords.messageFilepath k ∧
        passesFilters asciiRecords seenSince2017 i k v = true :=
  ⟨rfl, SearchMessages_body_calls goEnv asciiRecords asciiBucket true seenSince2017 rfl⟩

/-- With criteria that hold no sequence, UID or content term, a search loop
that ends without error returns one identifier for each record whose date and
flags match, and its body calls are the three calls on the body path of each
of these records, in walk order. -/
theorem searchLoop_metadata_only (env : Env) (m : Mailbox) (isUid : Bool)
    (criteria : SearchCriteria)
    (hseq : ∀ s u, criteria.MatchSeqNumAndUid s u = true)
    (hbody : ∀ e, criteria.Match e = .ok true) :
    ∀ (rest : List (Key × Value)) (c : Nat),
      (searchLoop env m isUid criteria rest c).err = none →
      (searchLoop env m isUid criteria rest c).ids.length =
        (rest.filter (fun e => metadataMatch criteria e.2)).length ∧
      (searchLoop env m isUid criteria rest c).calls =
        (rest.filter (fun e => metadataMatch criteria e.2)).flatMap
          (fun e => bodyCalls m e.1) := by
  intro rest
  induction rest with
  | nil => intro c _; simp [searchLoop]
  | cons e rest ih =>
    intro c herr
    obtain ⟨k, v⟩ := e
    simp only [searchLoop, hseq, Bool.not_true, Bool.false_eq_true, if_false] at herr ⊢
    cases v with
    | corrupt raw => simp [Mailbox.message, jsonUnmarshal] at herr
    | record fl d =>
      simp only [Mailbox.message, jsonUnmarshal] at herr ⊢
      cases hdate : criteria.MatchDate d with
      | false =>
        simp only [hdate, Bool.not_false, if_true] at herr ⊢
        simpa [metadataMatch, hdate] using ih _ herr
      | true =>
        simp only [hdate, Bool.not_true, Bool.false_eq_true, if_false] at herr ⊢
        cases hflags : criteria.MatchFlags (fl.map Prod.fst) with
        | false =>
          simp only [Message.flagList, hflags, Bool.not_false, if_true] at herr ⊢
          simpa [metadataMatch, hdate, hflags] using ih _ herr
        | true =>
          simp only [Message.flagList, hflags, Bool.not_true, Bool.false_eq_true,
            if_false] at herr ⊢
          cases hopen : env.osOpen (m.messageFilepath k) with
          | none => simp [hopen] at herr
          | some f =>
            simp only [hopen] at herr ⊢
            cases hread : env.messageRead f with
            | none => simp [hread] at herr
            | some ent =>
              simp only [hread, hbody, SearchResult.after] at herr ⊢
              obtain ⟨hids, hcalls⟩ := ih _ herr
              simp [metadataMatch, hdate, hflags, hids, hcalls, bodyCalls]

/-- C10 (amended): with criteria that hold only date and flag terms, a
`SearchMessages` call with `isUid = true` that returns no error returns as
many identifiers as there are records whose date and flags match, and its
body calls are, in walk order, one `os.Open`, one `message.Read` and one
`backendutil.Match` on the body path of each of these records and nothing
else: the parser is called once per matching record. -/
theorem SearchMessages_metadata_only (env : Env) (m : Mailbox) (b : Bucket)
    (criteria : SearchCriteria) (hm : m.index = some b)
    (hseq : ∀ s u, criteria.MatchSeqNumAndUid s u = true)
    (hbody : ∀ e, criteria.Match e = .ok true)
    (herr : (m.SearchMessages env true criteria).err = none) :
    (m.SearchMessages env true criteria).ids.length =
      (b.entries.filter (fun e => metadataMatch criteria e.2)).length ∧
    (m.SearchMessages env true criteria).calls =
      (b.entries.filter (fun e => metadataMatch criteria e.2)).flatMap
        (fun e => bodyCalls m e.1) ∧
    parserCalls (m.SearchMessages env true criteria).calls =
      (b.entries.filter (fun e => metadataMatch criteria e.2)).length := by
  simp only [Mailbox.SearchMessages, hm] at herr ⊢
  obtain ⟨hids, hcalls⟩ :=
    searchLoop_metadata_only env m true criteria hseq hbody b.entries 0 herr
  refine ⟨hids, hcalls, ?_⟩
  rw [hcalls]
  generalize b.entries.filter (fun e => metadataMatch criteria e.2) = l
  induction l with
  | nil => rfl
  | cons e l ih =>
    simp only [List.flatMap_cons, List.length_cons, ← ih]
    simp [parserCalls, bodyCalls, List.filter_cons]

/-- Witness for C10 (amended) on the index with keys "1", "2", "3" and the
criteria "\Seen present and date not before 2017". -/
theorem SearchMessages_metadata_only_witness :
    asciiRecords.index = some asciiBucket ∧
    (asciiRecords.SearchMessages goEnv true seenSince2017).err = none ∧
    (asciiRecords.SearchMessages goEnv true seenSince2017).ids.length =
      (asciiBucket.entries.filter (fun e => metadataMatch seenSince2017 e.2)).length ∧
    (asciiRecords.SearchMessages goEnv true seenSince2017).calls =
      (asciiBucket.entries.filter (fun e => metadataMatch seenSince2017 e.2)).flatMap
        (fun e => bodyCalls asciiRecords e.1) ∧
    parserCalls (asciiRecords.SearchMessages goEnv true seenSince2017).calls =
      (asciiBucket.entries.filter (fun e => metadataMatch seenSince2017 e.2)).length :=
  ⟨rfl, by decide,
    SearchMessages_metadata_only goEnv asciiRecords asciiBucket seenSince2017 rfl
      (fun _ _ => rfl) (fun _ => rfl) (by decide)⟩

/-- C10 (body always read): on the index with keys "1", "2", "3" in the
directory "inbox", where the body files exist and parse, the search for
"\Seen present and date not before 2017", which holds no content term,
returns no error and opens and parses the file inbox/3.eml of the one record
that passes the filters: one parser call, not zero. -/
theorem SearchMessages_metadata_only_parses :
    (asciiRecords.SearchMessages goEnv true seenSince2017).err = none ∧
    (asciiRecords.SearchMessages goEnv true seenSince2017).calls =
      [.osOpen "inbox/3.eml", .messageRead "inbox/3.eml", .matchBody "inbox/3.eml"] ∧
    parserCalls (asciiRecords.SearchMessages goEnv true seenSince2017).calls = 1 := by
  decide

/-! ## Append -/

/-- C5 (no record, the same UID again): on the index with two records and
sequence counter 2, `CreateMessage` returns `key required` and leaves the
mailbox as it was, sequence counter included, so no record is created; the
UID it had assigned to the message is 3, and a second call, on the mailbox
left behind, fails alike and assigns 3 again. -/
theorem CreateMessage_same_uid :
    (twoRecords.CreateMessage goEnv [SeenFlag] aDate []).err = some .keyRequired ∧
    (twoRecords.CreateMessage goEnv [SeenFlag] aDate []).mailbox = twoRecords ∧
    (twoRecords.CreateMessage goEnv [SeenFlag] aDate []).msg.map Message.Uid = some 3 ∧
    ((twoRecords.CreateMessage goEnv [SeenFlag] aDate []).mailbox.CreateMessage goEnv
      [SeenFlag] aDate []).err = some .keyRequired ∧
    ((twoRecords.CreateMessage goEnv [SeenFlag] aDate []).mailbox.CreateMessage goEnv
      [SeenFlag] aDate []).msg.map Message.Uid = some 3 := by
  decide

/-! ## Status -/

/-- C6 (stub codec): on the index holding the records of keys 1, 2 and 3,
`Status` succeeds, counts 3 messages and reports `UidNext = 1`. -/
theorem Status_uidNext_three :
    (threeRecords.Status []).2 = none ∧
    (threeRecords.Status []).1.map MailboxStatus.Messages = some 3 ∧
    (threeRecords.Status []).1.map MailboxStatus.UidNext = some 1 := by
  decide

/-- The cursor loop of `Status` never raises `UidNext`: the decoded UID of
every key is 0. -/
theorem statusLoop_uidNext :
    ∀ (entries : List (Key × Value)) (st : MailboxStatus),
      (statusLoop entries st).1.UidNext = st.UidNext := by
  intro entries
  induction entries with
  | nil => intro st; rfl
  | cons e entries ih =>
    intro st
    obtain ⟨k, v⟩ := e
    cases v with
    | corrupt raw => simp [statusLoop, parseUid, jsonUnmarshal]
    | record fl d =>
      simp only [statusLoop, parseUid, jsonUnmarshal, gt_iff_lt, Nat.not_lt_zero, if_false]
      rw [ih]
      split <;> split <;> rfl

/-- On every index that opens, `Status` reports `UidNext = 1`. -/
theorem Status_uidNext_one (m : Mailbox) (b : Bucket) (items : List String)
    (hm : m.index = some b) : (m.Status items).1.map MailboxStatus.UidNext = some 1 := by
  simp [Mailbox.Status, hm, statusLoop_uidNext]

/-- The closure of `CreateMessage` always returns an error: the key
`formatUid` returns is empty and `Put` refuses it. -/
theorem createTx_fails (m : Mailbox) (msg : Message) (b : Bucket) :
    ∃ e, (createTx m msg b).2 = .error e ∧ (e = .keyRequired ∨ e = .jsonMarshal) := by
  simp only [createTx]
  split
  · rename_i e heq
    refine ⟨e, rfl, Or.inr ?_⟩
    unfold jsonMarshal at heq
    split at heq
    · exact Except.noConfusion heq
    · simp only [Except.error.injEq] at heq
      exact heq.symm
  · exact ⟨.keyRequired, by simp [formatUid, Bucket.Put], Or.inl rfl⟩

/-- The metadata transaction of `CreateMessage` never commits: the mailbox,
sequence counter included, is left as it was, and an error is returned. -/
theorem CreateMessage_keyRequired (env : Env) (m : Mailbox) (b : Bucket) (flags : List String)
    (date : Time) (body : List (Fin 256)) (hm : m.index = some b) :
    (m.CreateMessage env flags date body).mailbox = m ∧
    ((m.CreateMessage env flags date body).err = some .keyRequired ∨
      (m.CreateMessage env flags date body).err = some .jsonMarshal) := by
  simp only [Mailbox.CreateMessage, hm]
  obtain ⟨e, he, hor⟩ := createTx_fails m
    ({ ({ Filepath := "", SeqNum := 0, Uid := 0, Flags := [],
          Date := Time.zero } : Message).setFlagList flags with Date := date }) b
  rw [he]
  rcases hor with h | h <;> simp [h]

/-- The keys `./ab` and `//ab` name one body file, inbox/ab.eml: the joined
path is cleaned. -/
theorem messageFilepath_alias :
    asciiRecords.messageFilepath [46, 47, 97, 98] = "inbox/ab.eml" ∧
    asciiRecords.messageFilepath [47, 47, 97, 98] = "inbox/ab.eml" := by
  decide

end Disk
